import Mathlib

/-
Verification of the canonlog request-scoped log accumulator.

The development shallowly embeds the Go package `canonlog` (src/context.go):
the `Logger` structure with its level-gated mutators (`DebugAdd`, `InfoAdd`,
`WarnAdd`, `ErrorAdd` and their batched `...Many` forms), the `Flush`
operation that serializes accumulated state into a record for the slog sink
and resets the logger, and the context carrier (`NewContext`, `GetLogger`,
`TryGetLogger`).

Go's `slog.Level` values are embedded as integers (Debug = -4, Info = 0,
Warn = 4, Error = 8), the `map[string]any` field store as an association
list with unique keys, Go `error` values as `Option String` (`none` is the
nil error), and `context.Context` as an immutable chain of key/value
bindings with innermost-first lookup.  A panic is an `Except.error` result.
-/

set_option autoImplicit false

namespace Canonlog

/-- slog.LevelDebug -/
def LevelDebug : Int := -4
/-- slog.LevelInfo -/
def LevelInfo : Int := 0
/-- slog.LevelWarn -/
def LevelWarn : Int := 4
/-- slog.LevelError -/
def LevelError : Int := 8

variable {V : Type}

/-- Go map write `m[k] = v` on an association-list representation of
`map[string]any`: replace the binding for `k` if present, else append. -/
def mapInsert : List (String × V) → String → V → List (String × V)
  | [], k, v => [(k, v)]
  | p :: rest, k, v => if p.1 = k then (k, v) :: rest else p :: mapInsert rest k v

/-- Go map read `m[k]` (the `v, ok` form): first binding for `k`, if any. -/
def mapLookup : List (String × V) → String → Option V
  | [], _ => none
  | p :: rest, k => if p.1 = k then some p.2 else mapLookup rest k

/-- The keys of the field store are pairwise distinct, as in a Go map. -/
def KeysNodup (fs : List (String × V)) : Prop := (fs.map Prod.fst).Nodup

/-- The `Logger` struct of src/context.go: field map, error messages,
gate level (controls what gets accumulated) and output level (can escalate). -/
structure Logger (V : Type) where
  fields : List (String × V)
  errors : List String
  gateLevel : Int
  level : Int
deriving DecidableEq, Repr

/-- An `Option` in Go's functional-options sense: a mutation of the logger
applied by `New`. -/
def LoggerOption (V : Type) : Type := Logger V → Logger V

/-- `WithLevel` sets the gate level, overriding the global level; it also
resets the output level to that gate. -/
def WithLevel (lvl : Int) : LoggerOption V := fun l =>
  { l with gateLevel := lvl, level := lvl }

/-- `New`: fresh logger at the (passed-in) global level, then the options
applied in order. -/
def New (globalLevel : Int) (opts : List (LoggerOption V)) : Logger V :=
  opts.foldl (fun l o => o l)
    { fields := [], errors := [], gateLevel := globalLevel, level := globalLevel }

/-- `DebugAdd`: store the field if the gate admits debug level. -/
def Logger.DebugAdd (l : Logger V) (k : String) (v : V) : Logger V :=
  if l.gateLevel ≤ LevelDebug then { l with fields := mapInsert l.fields k v } else l

/-- `DebugAddMany`: batched debug adds; skipped when the batch is empty. -/
def Logger.DebugAddMany (l : Logger V) (fs : List (String × V)) : Logger V :=
  if fs.length > 0 ∧ l.gateLevel ≤ LevelDebug then
    { l with fields := fs.foldl (fun m p => mapInsert m p.1 p.2) l.fields }
  else l

/-- `InfoAdd`: store the field if the gate admits info level. -/
def Logger.InfoAdd (l : Logger V) (k : String) (v : V) : Logger V :=
  if l.gateLevel ≤ LevelInfo then { l with fields := mapInsert l.fields k v } else l

/-- `InfoAddMany`: batched info adds; skipped when the batch is empty. -/
def Logger.InfoAddMany (l : Logger V) (fs : List (String × V)) : Logger V :=
  if fs.length > 0 ∧ l.gateLevel ≤ LevelInfo then
    { l with fields := fs.foldl (fun m p => mapInsert m p.1 p.2) l.fields }
  else l

/-- `WarnAdd`: store the field if the gate admits warn level and raise the
output level to at least Warn. -/
def Logger.WarnAdd (l : Logger V) (k : String) (v : V) : Logger V :=
  if l.gateLevel ≤ LevelWarn then
    { l with fields := mapInsert l.fields k v,
             level := if l.level < LevelWarn then LevelWarn else l.level }
  else l

/-- `WarnAddMany`: batched warn adds; skipped when the batch is empty. -/
def Logger.WarnAddMany (l : Logger V) (fs : List (String × V)) : Logger V :=
  if fs.length > 0 ∧ l.gateLevel ≤ LevelWarn then
    { l with fields := fs.foldl (fun m p => mapInsert m p.1 p.2) l.fields,
             level := if l.level < LevelWarn then LevelWarn else l.level }
  else l

/-- `ErrorAdd`: append the error message and raise the output level to Error,
unless the error is nil (`none`) or the gate rejects error level. -/
def Logger.ErrorAdd (l : Logger V) (err : Option String) : Logger V :=
  match err with
  | some msg =>
    if l.gateLevel ≤ LevelError then
      { l with errors := l.errors ++ [msg],
               level := if l.level < LevelError then LevelError else l.level }
    else l
  | none => l

/-- One attribute handed to `slog.LogAttrs`: either `slog.Any(k, v)` for an
accumulated field or `slog.Any("errors", errorsCopy)` for the error array. -/
inductive Attr (V : Type) where
  | field (key : String) (value : V)
  | errorsArr (errs : List String)
deriving DecidableEq, Repr

/-- The attribute key as the sink sees it. -/
def Attr.key : Attr V → String
  | .field k _ => k
  | .errorsArr _ => "errors"

/-- The record handed to the sink by `slog.LogAttrs(ctx, outputLevel, "", attrs...)`. -/
structure Record (V : Type) where
  level : Int
  message : String
  attrs : List (Attr V)
deriving DecidableEq, Repr

/-- `Flush`: snapshot the state, reset the logger (clear fields and errors,
output level back to the gate level), and build the sink record: one
attribute per field, plus an `errors` array when the error list is
non-empty, at the captured output level with empty message. -/
def Logger.Flush (l : Logger V) : Record V × Logger V :=
  ({ level := l.level,
     message := "",
     attrs := l.fields.map (fun p => Attr.field p.1 p.2)
              ++ (if l.errors.length > 0 then [Attr.errorsArr l.errors] else []) },
   { fields := [], errors := [], gateLevel := l.gateLevel, level := l.gateLevel })

/-- One mutating call on the logger (the batched forms take the map contents
as a list of key/value pairs). -/
inductive Op (V : Type) where
  | debugAdd (k : String) (v : V)
  | infoAdd (k : String) (v : V)
  | warnAdd (k : String) (v : V)
  | errorAdd (e : Option String)
  | debugAddMany (fs : List (String × V))
  | infoAddMany (fs : List (String × V))
  | warnAddMany (fs : List (String × V))
deriving DecidableEq, Repr

/-- Dispatch one call to the corresponding method. -/
def applyOp (l : Logger V) : Op V → Logger V
  | .debugAdd k v => l.DebugAdd k v
  | .infoAdd k v => l.InfoAdd k v
  | .warnAdd k v => l.WarnAdd k v
  | .errorAdd e => l.ErrorAdd e
  | .debugAddMany fs => l.DebugAddMany fs
  | .infoAddMany fs => l.InfoAddMany fs
  | .warnAddMany fs => l.WarnAddMany fs

/-- Run a sequence of add-calls. -/
def run (l : Logger V) (ops : List (Op V)) : Logger V := ops.foldl applyOp l

/-- The severity tier of an add-call (the level it is gated at). -/
def Op.sev : Op V → Int
  | .debugAdd _ _ => LevelDebug
  | .infoAdd _ _ => LevelInfo
  | .warnAdd _ _ => LevelWarn
  | .errorAdd _ => LevelError
  | .debugAddMany _ => LevelDebug
  | .infoAddMany _ => LevelInfo
  | .warnAddMany _ => LevelWarn

/-- Whether a call writes the field key `k`. -/
def Op.writesKey : Op V → String → Bool
  | .debugAdd kw _, k => kw == k
  | .infoAdd kw _, k => kw == k
  | .warnAdd kw _, k => kw == k
  | .errorAdd _, _ => false
  | .debugAddMany fs, k => fs.any (fun p => p.1 == k)
  | .infoAddMany fs, k => fs.any (fun p => p.1 == k)
  | .warnAddMany fs, k => fs.any (fun p => p.1 == k)

/-- The output level an accepted call escalates to, given gate `g`; `g`
itself when the call does not escalate (Debug/Info adds never do; empty
batches and nil errors are skipped). -/
def escOf (g : Int) : Op V → Int
  | .warnAdd _ _ => if g ≤ LevelWarn then LevelWarn else g
  | .warnAddMany fs => if fs.length > 0 ∧ g ≤ LevelWarn then LevelWarn else g
  | .errorAdd (some _) => if g ≤ LevelError then LevelError else g
  | _ => g

/-- A logger operation including `Flush` (whose state effect is the reset). -/
inductive OpF (V : Type) where
  | add (o : Op V)
  | flush
deriving DecidableEq, Repr

/-- Apply one operation, `Flush` acting by its post-state. -/
def applyOpF (l : Logger V) : OpF V → Logger V
  | .add o => applyOp l o
  | .flush => l.Flush.2

/-- Run a sequence of operations including flushes. -/
def runF (l : Logger V) (ops : List (OpF V)) : Logger V := ops.foldl applyOpF l

/-- The severity tier of a single (non-error) add method. -/
inductive AddSev where
  | debug
  | info
  | warn
deriving DecidableEq, Repr

/-- The slog level of an add tier. -/
def AddSev.toLevel : AddSev → Int
  | .debug => LevelDebug
  | .info => LevelInfo
  | .warn => LevelWarn

/-- The single-field add call at a given tier. -/
def addAt (s : AddSev) (k : String) (v : V) : Op V :=
  match s with
  | .debug => .debugAdd k v
  | .info => .infoAdd k v
  | .warn => .warnAdd k v

/-- The typed context key `loggerKey` ("canonlogger"). -/
def loggerKey : String := "canonlogger"

/-- A value stored in a context: either a `*Logger` (a reference into the
store of allocated loggers) or a value of any other dynamic type. -/
inductive CtxValue where
  | loggerRef (i : Nat)
  | other (n : Nat)
deriving DecidableEq, Repr

/-- `context.Context`: immutable chain of bindings; `withValue` derives a
new handle without touching the parent. -/
inductive Context where
  | background
  | withValue (parent : Context) (key : String) (val : CtxValue)
deriving DecidableEq, Repr

/-- `ctx.Value(key)`: innermost binding for the key, if any. -/
def Context.value : Context → String → Option CtxValue
  | .background, _ => none
  | .withValue p k v, q => if k = q then some v else p.value q

/-- The heap of allocated `*Logger` instances; a `loggerRef i` denotes the
instance at index `i`. -/
structure World (V : Type) where
  store : List (Logger V)
deriving DecidableEq, Repr

/-- `NewContext`: allocate a fresh logger with `New()` and derive a handle
binding `loggerKey` to it. -/
def NewContext (globalLevel : Int) (ctx : Context) (w : World V) : Context × World V :=
  (.withValue ctx loggerKey (.loggerRef w.store.length),
   ⟨w.store ++ [New globalLevel []]⟩)

/-- `GetLogger`: the bound logger, or a panic (modelled as `Except.error`
carrying the panic message) when the lookup or the type assertion fails. -/
def GetLogger (ctx : Context) : Except String Nat :=
  match ctx.value loggerKey with
  | some (.loggerRef i) => .ok i
  | _ => .error "canonlog: no logger in context - did you forget to call NewContext()?"

/-- `TryGetLogger`: `(logger, true)` when bound, `(nil, false)` otherwise. -/
def TryGetLogger (ctx : Context) : Option Nat × Bool :=
  match ctx.value loggerKey with
  | some (.loggerRef i) => (some i, true)
  | _ => (none, false)

/-- Whether a handle has a bound logger, by direct recursion over the
binding chain (innermost binding for `loggerKey` decides, and it must
actually hold a `*Logger`). -/
def boundLogger : Context → Option Nat
  | .background => none
  | .withValue p k v =>
    if k = loggerKey then
      match v with
      | .loggerRef i => some i
      | .other _ => none
    else boundLogger p

/-- Every logger reference in the handle points into the store. -/
def ctxValid (w : World V) : Context → Bool
  | .background => true
  | .withValue p _ v =>
    (match v with
     | .loggerRef i => decide (i < w.store.length)
     | .other _ => true) && ctxValid w p

theorem mapLookup_mapInsert_self (fs : List (String × V)) (k : String) (v : V) :
    mapLookup (mapInsert fs k v) k = some v := by
  induction fs with
  | nil => simp [mapInsert, mapLookup]
  | cons p rest ih =>
    by_cases hp : p.1 = k
    · simp [mapInsert, hp, mapLookup]
    · simp [mapInsert, hp, mapLookup, ih]

theorem mapLookup_mapInsert_ne (fs : List (String × V)) (k q : String) (v : V)
    (h : k ≠ q) : mapLookup (mapInsert fs k v) q = mapLookup fs q := by
  induction fs with
  | nil => simp [mapInsert, mapLookup, h]
  | cons p rest ih =>
    by_cases hp : p.1 = k
    · simp [mapInsert, hp, mapLookup, h]
    · simp [mapInsert, hp, mapLookup, ih]

theorem mapLookup_none_not_mem (fs : List (String × V)) (k : String) (v : V) :
    mapLookup fs k = none → (k, v) ∉ fs := by
  induction fs with
  | nil => intro _; simp
  | cons p rest ih =>
    intro h
    rw [mapLookup] at h
    by_cases hp : p.1 = k
    · rw [if_pos hp] at h; exact absurd h (by simp)
    · rw [if_neg hp] at h
      intro hm
      rcases List.mem_cons.mp hm with h1 | h2
      · exact hp (by rw [← h1])
      · exact ih h h2

theorem mem_of_mapLookup_some (fs : List (String × V)) (k : String) (v : V) :
    mapLookup fs k = some v → (k, v) ∈ fs := by
  induction fs with
  | nil => intro h; simp [mapLookup] at h
  | cons p rest ih =>
    intro h
    rw [mapLookup] at h
    by_cases hp : p.1 = k
    · rw [if_pos hp] at h
      have hv : p.2 = v := Option.some.inj h
      have hpkv : p = (k, v) := by
        cases p with
        | mk a b => simp at hp hv; rw [hp, hv]
      exact List.mem_cons.mpr (Or.inl hpkv.symm)
    · rw [if_neg hp] at h
      exact List.mem_cons.mpr (Or.inr (ih h))

theorem mapLookup_of_mem_nodup (fs : List (String × V)) (k : String) (v : V) :
    KeysNodup fs → (k, v) ∈ fs → mapLookup fs k = some v := by
  induction fs with
  | nil => intro _ hm; simp at hm
  | cons p rest ih =>
    intro hnd hm
    rw [KeysNodup, List.map_cons, List.nodup_cons] at hnd
    rcases List.mem_cons.mp hm with h1 | h2
    · rw [mapLookup, if_pos (by rw [← h1]), ← h1]
    · by_cases hp : p.1 = k
      · exact absurd (List.mem_map.mpr ⟨(k, v), h2, hp.symm⟩) hnd.1
      · rw [mapLookup, if_neg hp]
        exact ih hnd.2 h2

theorem mem_keys_mapInsert (fs : List (String × V)) (k : String) (v : V) (q : String) :
    q ∈ (mapInsert fs k v).map Prod.fst → q = k ∨ q ∈ fs.map Prod.fst := by
  induction fs with
  | nil => simp [mapInsert]
  | cons p rest ih =>
    by_cases hp : p.1 = k
    · simp only [mapInsert, if_pos hp, List.map_cons, List.mem_cons]
      rintro (h | h)
      · exact Or.inl h
      · exact Or.inr (Or.inr h)
    · simp only [mapInsert, if_neg hp, List.map_cons, List.mem_cons]
      rintro (h | h)
      · exact Or.inr (Or.inl h)
      · rcases ih h with h1 | h1
        · exact Or.inl h1
        · exact Or.inr (Or.inr h1)

theorem keysNodup_mapInsert (fs : List (String × V)) (k : String) (v : V) :
    KeysNodup fs → KeysNodup (mapInsert fs k v) := by
  induction fs with
  | nil => intro _; simp [mapInsert, KeysNodup]
  | cons p rest ih =>
    intro hnd
    rw [KeysNodup, List.map_cons, List.nodup_cons] at hnd
    by_cases hp : p.1 = k
    · rw [KeysNodup, mapInsert, if_pos hp, List.map_cons, List.nodup_cons]
      exact ⟨hp ▸ hnd.1, hnd.2⟩
    · rw [KeysNodup, mapInsert, if_neg hp, List.map_cons, List.nodup_cons]
      refine ⟨fun hmem => ?_, ih hnd.2⟩
      rcases mem_keys_mapInsert rest k v p.1 hmem with h | h
      · exact hp h
      · exact hnd.1 h

theorem keysNodup_foldl_mapInsert (batch : List (String × V)) :
    ∀ fs : List (String × V), KeysNodup fs →
      KeysNodup (batch.foldl (fun m p => mapInsert m p.1 p.2) fs) := by
  induction batch with
  | nil => intro fs h; simpa using h
  | cons q rest ih =>
    intro fs h
    rw [List.foldl_cons]
    exact ih _ (keysNodup_mapInsert fs q.1 q.2 h)

theorem mapLookup_foldl_mapInsert_of_not_writes (batch : List (String × V)) (k : String) :
    batch.any (fun p => p.1 == k) = false →
    ∀ fs : List (String × V),
      mapLookup (batch.foldl (fun m p => mapInsert m p.1 p.2) fs) k = mapLookup fs k := by
  induction batch with
  | nil => intro _ fs; rfl
  | cons q rest ih =>
    intro h fs
    rw [List.any_cons, Bool.or_eq_false_iff] at h
    have hne : q.1 ≠ k := by
      intro heq
      rw [heq] at h
      simp at h
    rw [List.foldl_cons, ih h.2, mapLookup_mapInsert_ne fs q.1 k q.2 hne]

theorem run_nil (l : Logger V) : run l [] = l := rfl

theorem run_cons (l : Logger V) (o : Op V) (ops : List (Op V)) :
    run l (o :: ops) = run (applyOp l o) ops := rfl

theorem run_append (l : Logger V) (ops₁ ops₂ : List (Op V)) :
    run l (ops₁ ++ ops₂) = run (run l ops₁) ops₂ := by
  rw [run, run, run, List.foldl_append]

theorem applyOp_gateLevel (l : Logger V) (op : Op V) :
    (applyOp l op).gateLevel = l.gateLevel := by
  cases op with
  | debugAdd k v => simp only [applyOp, Logger.DebugAdd]; split <;> rfl
  | infoAdd k v => simp only [applyOp, Logger.InfoAdd]; split <;> rfl
  | warnAdd k v => simp only [applyOp, Logger.WarnAdd]; split <;> rfl
  | errorAdd e =>
    cases e with
    | none => rfl
    | some m => simp only [applyOp, Logger.ErrorAdd]; split <;> rfl
  | debugAddMany fs => simp only [applyOp, Logger.DebugAddMany]; split <;> rfl
  | infoAddMany fs => simp only [applyOp, Logger.InfoAddMany]; split <;> rfl
  | warnAddMany fs => simp only [applyOp, Logger.WarnAddMany]; split <;> rfl

theorem run_gateLevel (ops : List (Op V)) :
    ∀ l : Logger V, (run l ops).gateLevel = l.gateLevel := by
  induction ops with
  | nil => intro l; rfl
  | cons o rest ih =>
    intro l
    rw [run_cons, ih (applyOp l o), applyOp_gateLevel]

theorem applyOp_level_le (l : Logger V) (op : Op V) :
    l.level ≤ (applyOp l op).level := by
  cases op with
  | debugAdd k v => simp only [applyOp, Logger.DebugAdd]; split <;> simp
  | infoAdd k v => simp only [applyOp, Logger.InfoAdd]; split <;> simp
  | warnAdd k v =>
    simp only [applyOp, Logger.WarnAdd, LevelWarn]
    split <;> simp <;> split <;> omega
  | errorAdd e =>
    cases e with
    | none => simp [applyOp, Logger.ErrorAdd]
    | some m =>
      simp only [applyOp, Logger.ErrorAdd, LevelError]
      split <;> simp <;> split <;> omega
  | debugAddMany fs => simp only [applyOp, Logger.DebugAddMany]; split <;> simp
  | infoAddMany fs => simp only [applyOp, Logger.InfoAddMany]; split <;> simp
  | warnAddMany fs =>
    simp only [applyOp, Logger.WarnAddMany, LevelWarn]
    split <;> simp <;> split <;> omega

theorem run_level_le (ops : List (Op V)) :
    ∀ l : Logger V, l.level ≤ (run l ops).level := by
  induction ops with
  | nil => intro l; exact le_refl _
  | cons o rest ih =>
    intro l
    rw [run_cons]
    exact (applyOp_level_le l o).trans (ih (applyOp l o))

theorem applyOp_level_eq (l : Logger V) (op : Op V) (h : l.gateLevel ≤ l.level) :
    (applyOp l op).level = max l.level (escOf l.gateLevel op) := by
  cases op with
  | debugAdd k v =>
    simp only [applyOp, Logger.DebugAdd, escOf]
    split <;> simp <;> omega
  | infoAdd k v =>
    simp only [applyOp, Logger.InfoAdd, escOf]
    split <;> simp <;> omega
  | warnAdd k v =>
    simp only [applyOp, Logger.WarnAdd, escOf, LevelWarn]
    by_cases hg : l.gateLevel ≤ (4 : Int)
    · rw [if_pos hg, if_pos hg]
      dsimp only
      split <;> omega
    · rw [if_neg hg, if_neg hg]
      omega
  | errorAdd e =>
    cases e with
    | none => simp only [applyOp, Logger.ErrorAdd, escOf]; omega
    | some m =>
      simp only [applyOp, Logger.ErrorAdd, escOf, LevelError]
      by_cases hg : l.gateLevel ≤ (8 : Int)
      · rw [if_pos hg, if_pos hg]
        dsimp only
        split <;> omega
      · rw [if_neg hg, if_neg hg]
        omega
  | debugAddMany fs =>
    simp only [applyOp, Logger.DebugAddMany, escOf]
    split <;> simp <;> omega
  | infoAddMany fs =>
    simp only [applyOp, Logger.InfoAddMany, escOf]
    split <;> simp <;> omega
  | warnAddMany fs =>
    simp only [applyOp, Logger.WarnAddMany, escOf, LevelWarn]
    by_cases hg : fs.length > 0 ∧ l.gateLevel ≤ (4 : Int)
    · rw [if_pos hg, if_pos hg]
      dsimp only
      split <;> omega
    · rw [if_neg hg, if_neg hg]
      omega

theorem run_level_eq (ops : List (Op V)) :
    ∀ l : Logger V, l.gateLevel ≤ l.level →
      (run l ops).level = ops.foldl (fun a o => max a (escOf l.gateLevel o)) l.level := by
  induction ops with
  | nil => intro l _; rfl
  | cons o rest ih =>
    intro l h
    rw [run_cons, List.foldl_cons]
    have hg : (applyOp l o).gateLevel = l.gateLevel := applyOp_gateLevel l o
    have h2 : (applyOp l o).gateLevel ≤ (applyOp l o).level := by
      rw [hg]; exact h.trans (applyOp_level_le l o)
    rw [ih (applyOp l o) h2]
    simp only [hg, applyOp_level_eq l o h]

theorem le_foldl_max (g : Int) (ops : List (Op V)) :
    ∀ a : Int, a ≤ ops.foldl (fun b o => max b (escOf g o)) a := by
  induction ops with
  | nil => intro a; exact le_refl _
  | cons o rest ih =>
    intro a
    rw [List.foldl_cons]
    exact (le_max_left a (escOf g o)).trans (ih _)

theorem applyOp_eq_of_sev_lt (l : Logger V) (op : Op V) (h : op.sev < l.gateLevel) :
    applyOp l op = l := by
  cases op with
  | debugAdd k v =>
    simp only [Op.sev, LevelDebug] at h
    simp only [applyOp, Logger.DebugAdd, LevelDebug]
    rw [if_neg (by omega)]
  | infoAdd k v =>
    simp only [Op.sev, LevelInfo] at h
    simp only [applyOp, Logger.InfoAdd, LevelInfo]
    rw [if_neg (by omega)]
  | warnAdd k v =>
    simp only [Op.sev, LevelWarn] at h
    simp only [applyOp, Logger.WarnAdd, LevelWarn]
    rw [if_neg (by omega)]
  | errorAdd e =>
    cases e with
    | none => rfl
    | some m =>
      simp only [Op.sev, LevelError] at h
      simp only [applyOp, Logger.ErrorAdd, LevelError]
      rw [if_neg (by omega)]
  | debugAddMany fs =>
    simp only [Op.sev, LevelDebug] at h
    simp only [applyOp, Logger.DebugAddMany, LevelDebug]
    rw [if_neg (fun hc => absurd hc.2 (by omega))]
  | infoAddMany fs =>
    simp only [Op.sev, LevelInfo] at h
    simp only [applyOp, Logger.InfoAddMany, LevelInfo]
    rw [if_neg (fun hc => absurd hc.2 (by omega))]
  | warnAddMany fs =>
    simp only [Op.sev, LevelWarn] at h
    simp only [applyOp, Logger.WarnAddMany, LevelWarn]
    rw [if_neg (fun hc => absurd hc.2 (by omega))]

theorem applyOp_lookup_of_not_writes (l : Logger V) (op : Op V) (k : String)
    (h : op.writesKey k = false) :
    mapLookup (applyOp l op).fields k = mapLookup l.fields k := by
  have hne : ∀ kw : String, (kw == k) = false → kw ≠ k := by
    intro kw hb heq
    rw [heq] at hb
    simp at hb
  cases op with
  | debugAdd kw v =>
    simp only [Op.writesKey] at h
    simp only [applyOp, Logger.DebugAdd]
    split
    · exact mapLookup_mapInsert_ne l.fields kw k v (hne kw h)
    · rfl
  | infoAdd kw v =>
    simp only [Op.writesKey] at h
    simp only [applyOp, Logger.InfoAdd]
    split
    · exact mapLookup_mapInsert_ne l.fields kw k v (hne kw h)
    · rfl
  | warnAdd kw v =>
    simp only [Op.writesKey] at h
    simp only [applyOp, Logger.WarnAdd]
    split
    · exact mapLookup_mapInsert_ne l.fields kw k v (hne kw h)
    · rfl
  | errorAdd e =>
    cases e with
    | none => rfl
    | some m =>
      simp only [applyOp, Logger.ErrorAdd]
      split <;> rfl
  | debugAddMany fs =>
    simp only [Op.writesKey] at h
    simp only [applyOp, Logger.DebugAddMany]
    split
    · exact mapLookup_foldl_mapInsert_of_not_writes fs k h l.fields
    · rfl
  | infoAddMany fs =>
    simp only [Op.writesKey] at h
    simp only [applyOp, Logger.InfoAddMany]
    split
    · exact mapLookup_foldl_mapInsert_of_not_writes fs k h l.fields
    · rfl
  | warnAddMany fs =>
    simp only [Op.writesKey] at h
    simp only [applyOp, Logger.WarnAddMany]
    split
    · exact mapLookup_foldl_mapInsert_of_not_writes fs k h l.fields
    · rfl

theorem run_lookup_none (k : String) (ops : List (Op V)) :
    ∀ l : Logger V, mapLookup l.fields k = none →
      (∀ o ∈ ops, o.writesKey k = true → o.sev < l.gateLevel) →
      mapLookup (run l ops).fields k = none := by
  induction ops with
  | nil => intro l hnone _; exact hnone
  | cons o rest ih =>
    intro l hnone hops
    rw [run_cons]
    cases hw : o.writesKey k with
    | true =>
      have hlt : o.sev < l.gateLevel := hops o (List.mem_cons_self o rest) hw
      rw [applyOp_eq_of_sev_lt l o hlt]
      exact ih l hnone (fun p hp => hops p (List.mem_cons_of_mem o hp))
    | false =>
      have hnone2 : mapLookup (applyOp l o).fields k = none := by
        rw [applyOp_lookup_of_not_writes l o k hw]; exact hnone
      refine ih (applyOp l o) hnone2 (fun p hp hpw => ?_)
      rw [applyOp_gateLevel]
      exact hops p (List.mem_cons_of_mem o hp) hpw

theorem applyOp_keysNodup (l : Logger V) (op : Op V) (h : KeysNodup l.fields) :
    KeysNodup (applyOp l op).fields := by
  cases op with
  | debugAdd k v =>
    simp only [applyOp, Logger.DebugAdd]
    split
    · exact keysNodup_mapInsert l.fields k v h
    · exact h
  | infoAdd k v =>
    simp only [applyOp, Logger.InfoAdd]
    split
    · exact keysNodup_mapInsert l.fields k v h
    · exact h
  | warnAdd k v =>
    simp only [applyOp, Logger.WarnAdd]
    split
    · exact keysNodup_mapInsert l.fields k v h
    · exact h
  | errorAdd e =>
    cases e with
    | none => exact h
    | some m =>
      simp only [applyOp, Logger.ErrorAdd]
      split <;> exact h
  | debugAddMany fs =>
    simp only [applyOp, Logger.DebugAddMany]
    split
    · exact keysNodup_foldl_mapInsert fs l.fields h
    · exact h
  | infoAddMany fs =>
    simp only [applyOp, Logger.InfoAddMany]
    split
    · exact keysNodup_foldl_mapInsert fs l.fields h
    · exact h
  | warnAddMany fs =>
    simp only [applyOp, Logger.WarnAddMany]
    split
    · exact keysNodup_foldl_mapInsert fs l.fields h
    · exact h

theorem run_keysNodup (ops : List (Op V)) :
    ∀ l : Logger V, KeysNodup l.fields → KeysNodup (run l ops).fields := by
  induction ops with
  | nil => intro l h; exact h
  | cons o rest ih =>
    intro l h
    rw [run_cons]
    exact ih (applyOp l o) (applyOp_keysNodup l o h)

theorem mem_flush_attrs_field (l : Logger V) (k : String) (v : V) :
    Attr.field k v ∈ l.Flush.1.attrs ↔ (k, v) ∈ l.fields := by
  simp only [Logger.Flush, List.mem_append, List.mem_map]
  constructor
  · rintro (⟨p, hp, he⟩ | h)
    · rw [Attr.field.injEq] at he
      have hpkv : p = (k, v) := by
        cases p with
        | mk a b => simp at he ⊢; exact he
      exact hpkv ▸ hp
    · split at h <;> simp at h
  · intro h
    exact Or.inl ⟨(k, v), h, rfl⟩

theorem mem_flush_attrs_errorsArr (l : Logger V) (es : List String) :
    Attr.errorsArr es ∈ l.Flush.1.attrs ↔ es = l.errors ∧ l.errors ≠ [] := by
  simp only [Logger.Flush, List.mem_append, List.mem_map]
  constructor
  · rintro (⟨p, _, he⟩ | h)
    · exact absurd he (by simp)
    · split at h
      · rename_i hlen
        simp at h
        exact ⟨h, List.length_pos.mp hlen⟩
      · simp at h
  · rintro ⟨rfl, hne⟩
    refine Or.inr ?_
    rw [if_pos (List.length_pos.mpr hne)]
    exact List.mem_singleton.mpr rfl

theorem flush_reset (l : Logger V) :
    l.Flush.2 = { fields := [], errors := [], gateLevel := l.gateLevel, level := l.gateLevel } := rfl

theorem flush_record_level (l : Logger V) : l.Flush.1.level = l.level := rfl

theorem run_lookup_of_not_writes (k : String) (ops : List (Op V)) :
    ∀ l : Logger V, (∀ o ∈ ops, o.writesKey k = false) →
      mapLookup (run l ops).fields k = mapLookup l.fields k := by
  induction ops with
  | nil => intro l _; rfl
  | cons o rest ih =>
    intro l h
    rw [run_cons, ih (applyOp l o) (fun p hp => h p (List.mem_cons_of_mem o hp)),
      applyOp_lookup_of_not_writes l o k (h o (List.mem_cons_self o rest))]

theorem addAt_lookup_self (l : Logger V) (s : AddSev) (k : String) (v : V)
    (h : l.gateLevel ≤ s.toLevel) :
    mapLookup (applyOp l (addAt s k v)).fields k = some v := by
  cases s with
  | debug =>
    simp only [AddSev.toLevel] at h
    simp only [addAt, applyOp, Logger.DebugAdd]
    rw [if_pos h]
    exact mapLookup_mapInsert_self l.fields k v
  | info =>
    simp only [AddSev.toLevel] at h
    simp only [addAt, applyOp, Logger.InfoAdd]
    rw [if_pos h]
    exact mapLookup_mapInsert_self l.fields k v
  | warn =>
    simp only [AddSev.toLevel] at h
    simp only [addAt, applyOp, Logger.WarnAdd]
    rw [if_pos h]
    exact mapLookup_mapInsert_self l.fields k v

theorem runF_gateLevel (ops : List (OpF V)) :
    ∀ l : Logger V, (runF l ops).gateLevel = l.gateLevel := by
  induction ops with
  | nil => intro l; rfl
  | cons o rest ih =>
    intro l
    have hstep : runF l (o :: rest) = runF (applyOpF l o) rest := rfl
    rw [hstep, ih (applyOpF l o)]
    cases o with
    | add p => exact applyOp_gateLevel l p
    | flush => rfl

theorem boundLogger_eq_value (ctx : Context) :
    boundLogger ctx
      = match ctx.value loggerKey with
        | some (.loggerRef i) => some i
        | _ => none := by
  induction ctx with
  | background => rfl
  | withValue p k v ih =>
    simp only [boundLogger, Context.value]
    by_cases hk : k = loggerKey
    · rw [if_pos hk, if_pos hk]
      cases v <;> rfl
    · rw [if_neg hk, if_neg hk]
      exact ih

theorem value_loggerRef_lt_of_valid (w : World V) (ctx : Context) :
    ctxValid w ctx = true →
      ∀ i, ctx.value loggerKey = some (.loggerRef i) → i < w.store.length := by
  induction ctx with
  | background => intro _ i h; exact absurd h (by simp [Context.value])
  | withValue p k v ih =>
    intro hv i h
    simp only [ctxValid, Bool.and_eq_true] at hv
    rw [Context.value] at h
    by_cases hk : k = loggerKey
    · rw [if_pos hk] at h
      cases v with
      | loggerRef j =>
        have hji : j = i := by
          have := Option.some.inj h
          exact CtxValue.loggerRef.inj this
        have := of_decide_eq_true hv.1
        exact hji ▸ this
      | other n => exact absurd (Option.some.inj h) (by simp)
    · rw [if_neg hk] at h
      exact ih hv.2 i h

/-- C1, counterexample: the claim says the attribute list handed to the sink
by `Flush` contains a duration attribute and a duration-in-milliseconds
attribute.  It does not: flushing a logger holding one accepted field yields
exactly the one field attribute, and no attribute keyed `duration` or
`duration_ms` is present. -/
theorem C1_counterexample :
    (Logger.Flush (Logger.InfoAdd (New LevelInfo []) "user_id" (123 : Nat))).1.attrs
      = [Attr.field "user_id" 123]
    ∧ ((Logger.Flush (Logger.InfoAdd (New LevelInfo []) "user_id" (123 : Nat))).1.attrs.all
        (fun a => !(a.key == "duration") && !(a.key == "duration_ms"))) = true := by
  constructor
  · rfl
  · decide

/-- C1, amended: for every gate level and every sequence of add-calls, the
attribute list handed to the sink by `Flush` contains one attribute per
accumulated field (field keys are pairwise distinct), plus an `errors` array
attribute exactly when the error list is non-empty — and nothing else, in
particular no duration attributes, since the `Logger` tracks no start time.
The record is emitted at the accumulated output severity with an empty
message. -/
theorem C1_flush_record (g : Int) (ops : List (Op V)) :
    (∀ k v, Attr.field k v ∈ (run (New g []) ops).Flush.1.attrs
      ↔ (k, v) ∈ (run (New g []) ops).fields)
    ∧ (∀ es, Attr.errorsArr es ∈ (run (New g []) ops).Flush.1.attrs
      ↔ (es = (run (New g []) ops).errors ∧ (run (New g []) ops).errors ≠ []))
    ∧ (run (New g []) ops).Flush.1.attrs.length
      = (run (New g []) ops).fields.length
        + (if (run (New g []) ops).errors.length > 0 then 1 else 0)
    ∧ (run (New g []) ops).Flush.1.level = (run (New g []) ops).level
    ∧ (run (New g []) ops).Flush.1.message = ""
    ∧ KeysNodup (run (New g []) ops).fields := by
  refine ⟨fun k v => mem_flush_attrs_field _ k v,
          fun es => mem_flush_attrs_errorsArr _ es, ?_, rfl, rfl, ?_⟩
  · simp only [Logger.Flush, List.length_append, List.length_map]
    split <;> simp
  · exact run_keysNodup ops (New g []) (by simp [KeysNodup, New])

/-- C2, counterexample: with gate level Debug, a single `InfoAdd` is accepted
(Debug ≤ Info), so the claim says the record is emitted at Info, the maximum
severity among accepted adds.  The code emits it at Debug: `InfoAdd` never
escalates the output level. -/
theorem C2_counterexample :
    LevelDebug ≤ LevelInfo
    ∧ (run (New LevelDebug []) [Op.infoAdd "k" (1 : Nat)]).Flush.1.level = LevelDebug
    ∧ LevelDebug ≠ LevelInfo := by
  refine ⟨by decide, rfl, by decide⟩

/-- C2, amended: the severity the record is emitted at equals the maximum of
the gate severity and the escalations contributed by accepted add-calls —
an accepted `WarnAdd`/non-empty `WarnAddMany` escalates to Warn and an
accepted non-nil `ErrorAdd` to Error, while `DebugAdd`/`InfoAdd` (and their
batched forms) never raise the output level; in particular the emitted
severity is never lower than the gate severity. -/
theorem C2_emitted_level (g : Int) (ops : List (Op V)) :
    (run (New g []) ops).Flush.1.level
      = ops.foldl (fun a o => max a (escOf g o)) g
    ∧ g ≤ (run (New g []) ops).Flush.1.level := by
  have h := run_level_eq ops (New g []) (le_refl g)
  refine ⟨h, ?_⟩
  rw [flush_record_level, h]
  exact le_foldl_max g ops g

/-- C3: an add-call at a severity strictly below the gate leaves the field
map unchanged, and a key only ever written by add-calls strictly below the
gate never appears as a field attribute in the flushed output. -/
theorem C3_gate_rejection :
    (∀ (l : Logger V) (op : Op V), op.sev < l.gateLevel → (applyOp l op).fields = l.fields)
    ∧ (∀ (g : Int) (ops : List (Op V)) (k : String),
        (∀ o ∈ ops, o.writesKey k = true → o.sev < g) →
        ∀ v : V, Attr.field k v ∉ (run (New g []) ops).Flush.1.attrs) := by
  constructor
  · intro l op h
    rw [applyOp_eq_of_sev_lt l op h]
  · intro g ops k h v hmem
    have hnone : mapLookup (run (New g []) ops).fields k = none := by
      apply run_lookup_none k ops (New g []) rfl
      exact h
    exact mapLookup_none_not_mem _ k v hnone ((mem_flush_attrs_field _ k v).mp hmem)

/-- C3 witness: with the default gate Info, a `DebugAdd` leaves the field
map unchanged and its field never reaches the flushed output. -/
theorem C3_witness :
    ((applyOp (New LevelInfo [] : Logger Nat) (Op.debugAdd "cache" 1)).fields
      = (New LevelInfo [] : Logger Nat).fields)
    ∧ Attr.field "cache" (1 : Nat)
        ∉ (run (New LevelInfo []) [Op.debugAdd "cache" (1 : Nat)]).Flush.1.attrs :=
  ⟨C3_gate_rejection.1 (New LevelInfo []) (Op.debugAdd "cache" 1) (by decide),
   C3_gate_rejection.2 LevelInfo [Op.debugAdd "cache" 1] "cache" (by decide) 1⟩

/-- C4: after `Flush`, the logger state is reset to fresh defaults — empty
field map, empty error list, output level equal to the gate level — and a
key not written again after the flush never appears as a field attribute in
a subsequent flush's output. -/
theorem C4_reset (g : Int) (ops ops₂ : List (Op V)) (k : String)
    (h : ∀ o ∈ ops₂, o.writesKey k = false) :
    (run (New g []) ops).Flush.2.fields = []
    ∧ (run (New g []) ops).Flush.2.errors = []
    ∧ (run (New g []) ops).Flush.2.level = (run (New g []) ops).Flush.2.gateLevel
    ∧ ∀ v : V, Attr.field k v ∉ (run (run (New g []) ops).Flush.2 ops₂).Flush.1.attrs := by
  refine ⟨rfl, rfl, rfl, ?_⟩
  intro v hmem
  have hnone : mapLookup (run (run (New g []) ops).Flush.2 ops₂).fields k = none := by
    apply run_lookup_none k ops₂ ((run (New g []) ops).Flush.2) rfl
    intro o ho hw
    rw [h o ho] at hw
    exact absurd hw (by simp)
  exact mapLookup_none_not_mem _ k v hnone ((mem_flush_attrs_field _ k v).mp hmem)

/-- C4 witness: a field flushed once is gone from the second flush when only
other keys are added in between. -/
theorem C4_witness :
    (run (New LevelInfo []) [Op.infoAdd "a" (1 : Nat)]).Flush.2.fields = []
    ∧ Attr.field "a" (1 : Nat)
        ∉ (run (run (New LevelInfo []) [Op.infoAdd "a" (1 : Nat)]).Flush.2
            [Op.infoAdd "b" (2 : Nat)]).Flush.1.attrs :=
  ⟨(C4_reset LevelInfo [Op.infoAdd "a" 1] [Op.infoAdd "b" 2] "a" (by decide)).1,
   (C4_reset LevelInfo [Op.infoAdd "a" 1] [Op.infoAdd "b" 2] "a" (by decide)).2.2.2 1⟩

/-- C5: along every sequence of add-calls from construction, the output
level stays at or above the gate level, never decreases as the sequence is
extended, and `Flush` resets it back to the gate level (which itself never
changes). -/
theorem C5_level_monotone (g : Int) (pre rest : List (Op V)) :
    g ≤ (run (New g []) pre).level
    ∧ (run (New g []) pre).level ≤ (run (New g []) (pre ++ rest)).level
    ∧ (run (New g []) (pre ++ rest)).gateLevel = g
    ∧ (run (New g []) (pre ++ rest)).Flush.2.level = g := by
  refine ⟨run_level_le pre (New g []), ?_, run_gateLevel _ (New g []), ?_⟩
  · rw [run_append]
    exact run_level_le rest (run (New g []) pre)
  · rw [flush_reset]
    exact run_gateLevel _ (New g [])

/-- C6: `ErrorAdd` with a nil error (`none`) is a complete no-op — the
whole logger state (error list, field map, output level, gate) is returned
unchanged, and no fault is raised. -/
theorem C6_nil_error_noop (l : Logger V) : l.ErrorAdd none = l := rfl

/-- C7: after two accepted adds of the same key with values v₁ then v₂, with
any other calls interleaved and appended that do not write that key, the
field map holds v₂ for that key, the flushed output contains the attribute
for v₂ and no other attribute for that key, and the field-map keys are
pairwise distinct. -/
theorem C7_last_write_wins (g : Int) (pre mid post : List (Op V)) (s₁ s₂ : AddSev)
    (k : String) (v₁ v₂ : V)
    (hacc₁ : g ≤ s₁.toLevel) (hacc₂ : g ≤ s₂.toLevel)
    (hmid : ∀ o ∈ mid, o.writesKey k = false)
    (hpost : ∀ o ∈ post, o.writesKey k = false) :
    mapLookup (run (New g [])
        (pre ++ [addAt s₁ k v₁] ++ mid ++ [addAt s₂ k v₂] ++ post)).fields k = some v₂
    ∧ Attr.field k v₂ ∈ (run (New g [])
        (pre ++ [addAt s₁ k v₁] ++ mid ++ [addAt s₂ k v₂] ++ post)).Flush.1.attrs
    ∧ (∀ v, Attr.field k v ∈ (run (New g [])
        (pre ++ [addAt s₁ k v₁] ++ mid ++ [addAt s₂ k v₂] ++ post)).Flush.1.attrs → v = v₂)
    ∧ KeysNodup (run (New g [])
        (pre ++ [addAt s₁ k v₁] ++ mid ++ [addAt s₂ k v₂] ++ post)).fields := by
  have hsplit : run (New g []) (pre ++ [addAt s₁ k v₁] ++ mid ++ [addAt s₂ k v₂] ++ post)
      = run (applyOp (run (run (New g []) (pre ++ [addAt s₁ k v₁])) mid) (addAt s₂ k v₂)) post := by
    rw [run_append, run_append, run_append]
    rfl
  have hgate : (run (run (New g []) (pre ++ [addAt s₁ k v₁])) mid).gateLevel = g := by
    rw [run_gateLevel, run_gateLevel]
    rfl
  have hlook : mapLookup (run (New g [])
      (pre ++ [addAt s₁ k v₁] ++ mid ++ [addAt s₂ k v₂] ++ post)).fields k = some v₂ := by
    rw [hsplit, run_lookup_of_not_writes k post _ hpost,
      addAt_lookup_self _ s₂ k v₂ (by rw [hgate]; exact hacc₂)]
  have hnd : KeysNodup (run (New g [])
      (pre ++ [addAt s₁ k v₁] ++ mid ++ [addAt s₂ k v₂] ++ post)).fields :=
    run_keysNodup _ (New g []) (by simp [KeysNodup, New])
  refine ⟨hlook, ?_, ?_, hnd⟩
  · exact (mem_flush_attrs_field _ k v₂).mpr (mem_of_mapLookup_some _ k v₂ hlook)
  · intro v hv
    have hmemf : (k, v) ∈ (run (New g [])
        (pre ++ [addAt s₁ k v₁] ++ mid ++ [addAt s₂ k v₂] ++ post)).fields :=
      (mem_flush_attrs_field _ k v).mp hv
    have := mapLookup_of_mem_nodup _ k v hnd hmemf
    rw [hlook] at this
    exact (Option.some.inj this).symm

/-- C7 witness: with gate Info, adding k=1 then an unrelated field then k=2
leaves the field map holding k=2, which is the one attribute for k in the
flushed output. -/
theorem C7_witness :
    mapLookup (run (New LevelInfo [])
        ([] ++ [addAt AddSev.info "k" (1 : Nat)] ++ [Op.infoAdd "other" 5]
          ++ [addAt AddSev.info "k" (2 : Nat)] ++ [])).fields "k" = some 2
    ∧ Attr.field "k" (2 : Nat) ∈ (run (New LevelInfo [])
        ([] ++ [addAt AddSev.info "k" (1 : Nat)] ++ [Op.infoAdd "other" 5]
          ++ [addAt AddSev.info "k" (2 : Nat)] ++ [])).Flush.1.attrs :=
  ⟨(C7_last_write_wins LevelInfo [] [Op.infoAdd "other" 5] [] AddSev.info AddSev.info
      "k" 1 2 (by decide) (by decide) (by decide) (by decide)).1,
   (C7_last_write_wins LevelInfo [] [Op.infoAdd "other" 5] [] AddSev.info AddSev.info
      "k" 1 2 (by decide) (by decide) (by decide) (by decide)).2.1⟩

/-- C8: `GetLogger` on the handle produced by `NewContext` returns exactly
the logger instance `NewContext` allocated and bound (the fresh slot in the
store, holding `New()`), and the original handle is untouched: for any valid
input handle, its own lookup cannot yield the newly allocated instance. -/
theorem C8_carrier_roundtrip (g : Int) (w : World V) (h : Context)
    (hv : ctxValid w h = true) :
    GetLogger (NewContext g h w).1 = Except.ok w.store.length
    ∧ (NewContext g h w).2.store.get? w.store.length = some (New g [])
    ∧ (TryGetLogger h).1 ≠ some w.store.length := by
  refine ⟨?_, ?_, ?_⟩
  · simp [GetLogger, NewContext, Context.value]
  · simp [NewContext, List.get?_eq_getElem?, List.getElem?_concat_length]
  · intro heq
    rw [TryGetLogger] at heq
    cases hval : Context.value h loggerKey with
    | none => rw [hval] at heq; exact absurd heq (by simp)
    | some v =>
      cases v with
      | loggerRef i =>
        rw [hval] at heq
        have hii : i = w.store.length := by
          have := congrArg id heq
          simpa using this
        have hlt := value_loggerRef_lt_of_valid w h hv i hval
        omega
      | other n => rw [hval] at heq; exact absurd heq (by simp)

/-- C8 witness: attaching to the empty background handle over an empty store
binds logger 0, and the background handle itself finds no logger. -/
theorem C8_witness :
    GetLogger (NewContext LevelInfo Context.background (⟨[]⟩ : World Nat)).1
      = Except.ok 0
    ∧ (TryGetLogger Context.background).1 ≠ some 0 :=
  ⟨(C8_carrier_roundtrip LevelInfo (⟨[]⟩ : World Nat) Context.background rfl).1,
   (C8_carrier_roundtrip LevelInfo (⟨[]⟩ : World Nat) Context.background rfl).2.2⟩

/-- C9: on a handle with no bound logger, the strict accessor `GetLogger`
panics (modelled as `Except.error` with the panic message) while
`TryGetLogger` returns `(none, false)` without raising; on a handle with a
bound logger, `GetLogger` returns it and `TryGetLogger` returns it with
`true`. -/
theorem C9_lookup_policy (ctx : Context) :
    (boundLogger ctx = none →
      GetLogger ctx
        = Except.error "canonlog: no logger in context - did you forget to call NewContext()?"
      ∧ TryGetLogger ctx = (none, false))
    ∧ (∀ i, boundLogger ctx = some i →
      GetLogger ctx = Except.ok i ∧ TryGetLogger ctx = (some i, true)) := by
  have hb := boundLogger_eq_value ctx
  constructor
  · intro h
    cases hval : Context.value ctx loggerKey with
    | none => exact ⟨by simp [GetLogger, hval], by simp [TryGetLogger, hval]⟩
    | some v =>
      cases v with
      | loggerRef i =>
        rw [hval] at hb
        rw [h] at hb
        exact absurd hb (by simp)
      | other n => exact ⟨by simp [GetLogger, hval], by simp [TryGetLogger, hval]⟩
  · intro i h
    cases hval : Context.value ctx loggerKey with
    | none =>
      rw [hval] at hb
      rw [h] at hb
      exact absurd hb (by simp)
    | some v =>
      cases v with
      | loggerRef j =>
        rw [hval] at hb
        rw [h] at hb
        have hji : j = i := Option.some.inj hb.symm
        exact ⟨by simp [GetLogger, hval, hji], by simp [TryGetLogger, hval, hji]⟩
      | other n =>
        rw [hval] at hb
        rw [h] at hb
        exact absurd hb (by simp)

/-- C9 witness: the background handle has no binding, so `GetLogger` panics
and `TryGetLogger` reports not-found; a handle binding logger 0 makes both
return it. -/
theorem C9_witness :
    (GetLogger Context.background
      = Except.error "canonlog: no logger in context - did you forget to call NewContext()?"
     ∧ TryGetLogger Context.background = (none, false))
    ∧ (GetLogger (Context.withValue Context.background loggerKey (CtxValue.loggerRef 0))
        = Except.ok 0
       ∧ TryGetLogger (Context.withValue Context.background loggerKey (CtxValue.loggerRef 0))
        = (some 0, true)) :=
  ⟨(C9_lookup_policy Context.background).1 rfl,
   (C9_lookup_policy
      (Context.withValue Context.background loggerKey (CtxValue.loggerRef 0))).2 0 (by decide)⟩

/-- C10: the gate level is fixed at construction — `New` sets it to the
global level, `WithLevel` overrides it — and no subsequent operation (any
add-call, batched or not, or `Flush`) ever changes it. -/
theorem C10_gate_fixed :
    (∀ gl lvl : Int, (New gl [WithLevel (V := V) lvl]).gateLevel = lvl)
    ∧ (∀ gl : Int, (New gl ([] : List (LoggerOption V))).gateLevel = gl)
    ∧ (∀ (l : Logger V) (ops : List (OpF V)), (runF l ops).gateLevel = l.gateLevel) :=
  ⟨fun _ _ => rfl, fun _ => rfl, fun l ops => runF_gateLevel ops l⟩

end Canonlog
